import Mathlib

/-!
# Verification of the food-log parsing and aggregation core

This file gives a shallow embedding, in Lean 4, of the text-processing core of
the `obsidian-macro-tracking` plugin, and proves (or refutes) the frozen claims
about it.  Sources embedded here:

* `src/NutritionCalculator.ts` — section extraction, the two entry grammars,
  nutrition aggregation, goal progress;
* `FoodHighlightCore.ts` — the offset-tracking section extractor and the
  highlight-range / calorie-hint scanners;
* `FoodHighlightPostProcessor.ts` — the rendered-view reconciliation pass
  (DOM reconstruction, container selection and the pass entry point).

Modelling conventions:

* JavaScript strings are modelled as `String` / `List Char`; `s.split("\n")`
  becomes splitting the character list on `'\n'`, and offsets/lengths count
  characters (the sources only ever use the BMP subset where this agrees with
  UTF-16 code-unit counts).
* JavaScript numbers are modelled as `ℚ` (exact rationals).  Every numeric
  computation in the sources is a sum / product / division / `Math.round` of
  parsed decimal literals, which the rational model reproduces exactly on all
  inputs appearing in the development.
* The JavaScript regular expressions are hand-compiled to deterministic
  matching functions.  Each matcher's doc comment records the regex it embeds;
  the backtracking behaviour of each regex is deterministic (every quantifier
  in them is committed: after a greedy run of `[^\]]+`, `\s+`, `\d+` or of an
  alternation branch no continuation can succeed on a backtracked shorter run,
  because the character class of the quantifier and the first-character set of
  the continuation are disjoint), so the one-pass functions below compute
  exactly the regex match.
* Fallible or side-effecting code is modelled explicitly: a nutrition lookup
  is a total function into a `LookupRes` (data / null / thrown error), error
  callbacks become an invocation log, a thrown exception becomes `Except`.
* TypeScript optional fields become `Option` fields; `Record` maps keyed by a
  nutrient name become functions out of the finite key type `NKey`.
-/

namespace FoodTracker

/-! ## Character-level utilities shared by all regexes -/

/-- JavaScript's `\s` class (and the set trimmed by `String.prototype.trim`),
restricted to the characters that can actually occur here: ASCII whitespace
plus NBSP, BOM and the Unicode space separators used by JS. -/
def jsIsSpace (c : Char) : Bool :=
  c = ' ' ∨ c = '\t' ∨ c = '\n' ∨ c = '\r' ∨
  c.toNat = 0x0b ∨ c.toNat = 0x0c ∨ c.toNat = 0xa0 ∨
  c.toNat = 0xfeff ∨ c.toNat = 0x2028 ∨ c.toNat = 0x2029

/-- `String.prototype.trim` on a character list: drop `\s` characters from
both ends. -/
def jsTrim (cs : List Char) : List Char :=
  ((cs.dropWhile jsIsSpace).reverse.dropWhile jsIsSpace).reverse

/-- `String.prototype.toLowerCase`, characterwise (ASCII-accurate, which is
all the sources compare). -/
def lowerL (cs : List Char) : List Char := cs.map Char.toLower

/-- `content.split("\n")` on a character list: split on every `'\n'`,
keeping empty components (JS semantics for a one-character separator). -/
def splitNl : List Char → List (List Char)
  | [] => [[]]
  | c :: cs =>
    let rest := splitNl cs
    if c = '\n' then [] :: rest
    else match rest with
      | [] => [[c]]
      | r :: rs => (c :: r) :: rs

/-- `'0' ≤ c ≤ '9'`, JavaScript's `\d`. -/
def isDigitJs (c : Char) : Bool := '0' ≤ c ∧ c ≤ '9'

/-! ## Heading recognition

`const headingMatch = line.match(/^(#{1,6})\s*(.*)$/)` in both section
extractors.  A line matches iff it starts with `#`; the captured level is the
length of the leading `#`-run capped at 6, and the captured text is the rest
of the line with its leading `\s`-run removed (the callers then `.trim()` it;
`(.*)` and the 6-cap make the pattern total on `#`-initial lines). -/

/-- The heading regex `^(#{1,6})\s*(.*)$`: `some (level, capturedText)` when
the line starts with `#`, where `level = min(#run, 6)` and `capturedText` is
the remainder after the (greedy) `\s*`. -/
def headingOf (l : List Char) : Option (Nat × List Char) :=
  let hashes := l.takeWhile (· = '#')
  if hashes = [] then none
  else
    let lv := min hashes.length 6
    some (lv, (l.drop lv).dropWhile jsIsSpace)

/-- Is `l` a level-2 heading whose trimmed title equals `target`
case-insensitively (the condition opening the Food Log section)? -/
def isTargetHeading (target : List Char) (l : List Char) : Bool :=
  match headingOf l with
  | some (lv, txt) => lv = 2 ∧ lowerL (jsTrim txt) = lowerL target
  | none => false

/-- Is `l` a heading that closes an open section: level ≤ 2 and not itself a
target heading (a repeated target heading is consumed by the opening branch
of the loop before the close test runs)? -/
def isClosingHeading (target : List Char) (l : List Char) : Bool :=
  match headingOf l with
  | some (lv, _) => lv ≤ 2 ∧ ¬ isTargetHeading target l
  | none => false

/-! ## SectionExtractor, `NutritionCalculator.ts` version

`extractLinesUnderHeading(content, headingText)`: iterate over
`content.split("\n")` with an `inSection` flag; a matching level-2 heading
sets the flag and is skipped (`continue`), a subsequent heading of level ≤ 2
breaks out of the loop while the flag is set, every other line is pushed when
the flag is set. -/

/-- The loop body of `NutritionCalculator.extractLinesUnderHeading`, as a
recursion over the line list carrying the `inSection` flag. -/
def extractAux (target : List Char) : List (List Char) → Bool → List (List Char)
  | [], _ => []
  | l :: ls, inSection =>
    match headingOf l with
    | some (lv, txt) =>
      if lv = 2 ∧ lowerL (jsTrim txt) = lowerL target then
        extractAux target ls true
      else if inSection ∧ lv ≤ 2 then
        []
      else
        (if inSection then [l] else []) ++ extractAux target ls inSection
    | none =>
      (if inSection then [l] else []) ++ extractAux target ls inSection

/-- `extractLinesUnderHeading` of `NutritionCalculator.ts` (lines as
character lists). -/
def extractLinesUnderHeading (content : String) (headingText : String) :
    List (List Char) :=
  extractAux headingText.data (splitNl content.data) false

/-! ## SectionExtractor, `FoodHighlightCore.ts` version

The independently implemented `extractLinesUnderHeading(text, headingText)`
of `FoodHighlightCore.ts`: same loop, but `for..of` with a running `offset`
that grows by `line.length + 1` for every line consumed (including the
heading line itself), and the output pairs each retained line with its
offset. -/

/-- The loop body of `FoodHighlightCore.extractLinesUnderHeading`. -/
def extractWithOffsetAux (target : List Char) :
    List (List Char) → Bool → Nat → List (List Char × Nat)
  | [], _, _ => []
  | l :: ls, inSection, offset =>
    match headingOf l with
    | some (lv, txt) =>
      if lv = 2 ∧ lowerL (jsTrim txt) = lowerL target then
        extractWithOffsetAux target ls true (offset + l.length + 1)
      else if inSection ∧ lv ≤ 2 then
        []
      else
        (if inSection then [(l, offset)] else []) ++
          extractWithOffsetAux target ls inSection (offset + l.length + 1)
    | none =>
      (if inSection then [(l, offset)] else []) ++
        extractWithOffsetAux target ls inSection (offset + l.length + 1)

/-- `extractLinesUnderHeading` of `FoodHighlightCore.ts`: retained lines
paired with their character offsets into the full text. -/
def extractLinesUnderHeadingWithOffsets (text : String) (headingText : String) :
    List (List Char × Nat) :=
  extractWithOffsetAux headingText.data (splitNl text.data) false 0

/-! ## Section-extractor lemmas -/

/-- Unfold `isTargetHeading` against a successful heading match. -/
theorem isTargetHeading_eq (target l : List Char) {lv : Nat} {txt : List Char}
    (h : headingOf l = some (lv, txt)) :
    isTargetHeading target l = (decide (lv = 2) && decide (lowerL (jsTrim txt) = lowerL target)) := by
  simp [isTargetHeading, h]

/-- A line list with no target heading never opens the section: the
calculator-side loop started with `inSection = false` emits nothing. -/
theorem extractAux_eq_nil_of_no_target (target : List Char) (ls : List (List Char))
    (hno : ∀ l ∈ ls, isTargetHeading target l = false) :
    extractAux target ls false = [] := by
  induction ls with
  | nil => rfl
  | cons l ls ih =>
    have hl := hno l (List.mem_cons_self _ _)
    have hls : ∀ x ∈ ls, isTargetHeading target x = false :=
      fun x hx => hno x (List.mem_cons_of_mem _ hx)
    cases hh : headingOf l with
    | none => simpa [extractAux, hh] using ih hls
    | some p =>
      obtain ⟨lv, txt⟩ := p
      have : ¬ (lv = 2 ∧ lowerL (jsTrim txt) = lowerL target) := by
        have := isTargetHeading_eq target l hh
        rw [hl] at this
        intro hc
        simp [hc.1, hc.2] at this
      simp only [extractAux, hh]
      rw [if_neg this]
      simpa using ih hls

/-- Once the section is open, the loop emits exactly the lines up to (and
excluding) the first closing heading, dropping repeated target headings
(which re-open the section and are skipped) along the way. -/
theorem extractAux_true_characterization (target : List Char) (ls : List (List Char)) :
    extractAux target ls true =
      (ls.takeWhile (fun l => ! isClosingHeading target l)).filter
        (fun l => ! isTargetHeading target l) := by
  induction ls with
  | nil => rfl
  | cons l ls ih =>
    cases hh : headingOf l with
    | none =>
      have htgt : isTargetHeading target l = false := by simp [isTargetHeading, hh]
      have hcl : isClosingHeading target l = false := by simp [isClosingHeading, hh]
      simp [extractAux, hh, List.takeWhile, List.filter, hcl, htgt, ih]
    | some p =>
      obtain ⟨lv, txt⟩ := p
      by_cases ht : lv = 2 ∧ lowerL (jsTrim txt) = lowerL target
      · have htgt : isTargetHeading target l = true := by
          rw [isTargetHeading_eq target l hh]; simp [ht.1, ht.2]
        have hcl : isClosingHeading target l = false := by
          simp [isClosingHeading, hh, htgt]
        simp [extractAux, hh, ht, List.takeWhile, List.filter, hcl, htgt, ih]
      · have htgt : isTargetHeading target l = false := by
          rw [isTargetHeading_eq target l hh]
          rcases Decidable.not_and_iff_or_not.mp ht with h1 | h1 <;> simp [h1]
        by_cases hle : lv ≤ 2
        · have hcl : isClosingHeading target l = true := by
            simp [isClosingHeading, hh, htgt, hle]
          simp [extractAux, hh, ht, hle, List.takeWhile, hcl]
        · have hcl : isClosingHeading target l = false := by
            simp [isClosingHeading, hh, hle]
          simp [extractAux, hh, ht, hle, List.takeWhile, List.filter, hcl, htgt, ih]

/-- Prefix lines without a target heading are skipped without opening the
section. -/
theorem extractAux_append_of_no_target (target : List Char) (pre ls : List (List Char))
    (hno : ∀ l ∈ pre, isTargetHeading target l = false) :
    extractAux target (pre ++ ls) false = extractAux target ls false := by
  induction pre with
  | nil => rfl
  | cons l pre ih =>
    have hl := hno l (List.mem_cons_self _ _)
    have hpre : ∀ x ∈ pre, isTargetHeading target x = false :=
      fun x hx => hno x (List.mem_cons_of_mem _ hx)
    cases hh : headingOf l with
    | none => simpa [extractAux, hh] using ih hpre
    | some p =>
      obtain ⟨lv, txt⟩ := p
      have : ¬ (lv = 2 ∧ lowerL (jsTrim txt) = lowerL target) := by
        have := isTargetHeading_eq target l hh
        rw [hl] at this
        intro hc
        simp [hc.1, hc.2] at this
      simp only [extractAux, List.cons_append, hh]
      rw [if_neg this]
      simpa using ih hpre

/-- Opening on a target heading hands the tail to the open-section loop. -/
theorem extractAux_cons_target (target : List Char) (h : List Char)
    (ls : List (List Char)) (ht : isTargetHeading target h = true) :
    extractAux target (h :: ls) false = extractAux target ls true := by
  cases hh : headingOf h with
  | none => simp [isTargetHeading, hh] at ht
  | some p =>
    obtain ⟨lv, txt⟩ := p
    rw [isTargetHeading_eq target h hh] at ht
    have hc : lv = 2 ∧ lowerL (jsTrim txt) = lowerL target := by
      constructor
      · exact of_decide_eq_true (Bool.and_elim_left ht)
      · exact of_decide_eq_true (Bool.and_elim_right ht)
    simp [extractAux, hh, hc]

/-- **C4 (amended).** For every text whose line list splits as a prefix with
no target heading, a first matching level-2 target heading, and a tail: the
extracted section is exactly the tail up to the first heading of level ≤ 2
*whose trimmed title does not match the target*, with any repeated matching
target headings removed (they re-open the section instead of closing it).
Content after a level-3-or-deeper heading is thereby included (such a line is
not a closing heading), and content after a closing `##`/`#` heading is
excluded. -/
theorem extract_section_boundary (content headingText : String)
    (pre rest : List (List Char)) (h : List Char)
    (hsplit : splitNl content.data = pre ++ h :: rest)
    (hpre : ∀ l ∈ pre, isTargetHeading headingText.data l = false)
    (hh : isTargetHeading headingText.data h = true) :
    extractLinesUnderHeading content headingText =
      (rest.takeWhile (fun l => ! isClosingHeading headingText.data l)).filter
        (fun l => ! isTargetHeading headingText.data l) := by
  unfold extractLinesUnderHeading
  rw [hsplit, extractAux_append_of_no_target _ _ _ hpre,
    extractAux_cons_target _ _ _ hh, extractAux_true_characterization]

/-- Witness for `extract_section_boundary` at a concrete document: the
section under `## Food Log` keeps the line after a `### sub` heading and
stops at `## Other`. -/
theorem extract_section_boundary_witness :
    extractLinesUnderHeading "x\n## Food Log\na\n### sub\nd\n## Other\nc" "Food Log" =
      ["a".data, "### sub".data, "d".data] :=
  extract_section_boundary "x\n## Food Log\na\n### sub\nd\n## Other\nc" "Food Log"
    ["x".data]
    ["a".data, "### sub".data, "d".data, "## Other".data, "c".data]
    "## Food Log".data
    (by decide) (by decide) (by decide)

/-- **C4 (counterexample).** The claim says the section stops emitting lines
at the next heading of level ≤ 2.  But a *second* `## Food Log` heading — a
level-2 heading — does not close the section: the opening branch of the loop
runs first, re-opens the section and skips the heading line, so the line `b`
after it is still emitted. -/
theorem extract_stops_at_any_level2_counterexample :
    extractLinesUnderHeading "## Food Log\na\n## Food Log\nb" "Food Log" =
      ["a".data, "b".data] ∧
    headingOf "## Food Log".data = some (2, "Food Log".data) := by
  constructor <;> decide

/-- The two extractor loop bodies track each other line by line; the offset
parameter is irrelevant to which lines are retained. -/
theorem extractAux_eq_map_fst (target : List Char) (ls : List (List Char)) :
    ∀ (inSection : Bool) (offset : Nat),
      extractAux target ls inSection =
        (extractWithOffsetAux target ls inSection offset).map Prod.fst := by
  induction ls with
  | nil => intro inSection offset; rfl
  | cons l ls ih =>
    intro inSection offset
    cases hh : headingOf l with
    | none =>
      cases inSection
      · simpa [extractAux, extractWithOffsetAux, hh] using
          ih false (offset + l.length + 1)
      · simpa [extractAux, extractWithOffsetAux, hh] using
          ih true (offset + l.length + 1)
    | some p =>
      obtain ⟨lv, txt⟩ := p
      by_cases ht : lv = 2 ∧ lowerL (jsTrim txt) = lowerL target
      · simpa [extractAux, extractWithOffsetAux, hh, ht] using
          ih true (offset + l.length + 1)
      · by_cases hle : lv ≤ 2 <;> cases inSection
        · simpa [extractAux, extractWithOffsetAux, hh, ht, hle] using
            ih false (offset + l.length + 1)
        · simp [extractAux, extractWithOffsetAux, hh, ht, hle]
        · simpa [extractAux, extractWithOffsetAux, hh, ht, hle] using
            ih false (offset + l.length + 1)
        · simpa [extractAux, extractWithOffsetAux, hh, ht, hle] using
            ih true (offset + l.length + 1)

/-- **C10.** The two independently implemented section extractors agree:
for every content string and heading, the line list returned by
`NutritionCalculator.extractLinesUnderHeading` equals the sequence of line
components (offsets forgotten) returned by
`FoodHighlightCore.extractLinesUnderHeading`. -/
theorem extractors_agree (content headingText : String) :
    extractLinesUnderHeading content headingText =
      (extractLinesUnderHeadingWithOffsets content headingText).map Prod.fst :=
  extractAux_eq_map_fst headingText.data (splitNl content.data) false 0

/-! ## The linked-entry grammar

`NutritionCalculator.ts` (entry extraction, first match per line) and
`FoodHighlightCore.ts` (highlighting and hints, global match) share the
regex

`/\[\[([^\]]+)\]\]\s+(\d+(?:\.\d+)?)(kg|lb|cups?|tbsp|tsp|ml|oz|g|l|pcs?)/i`

Every quantifier in it is committed (see the module comment), so the
deterministic matcher below computes the regex match exactly. -/

/-- First alternative in `alts` that is a case-insensitive prefix of `cs`;
returns the consumed input characters and the rest.  Embeds an ordered regex
alternation of literal words under the `i` flag (the alternations used here
are prefix-free once ordered, so no backtracking across alternatives can
occur). -/
def matchAltCI (alts : List (List Char)) (cs : List Char) :
    Option (List Char × List Char) :=
  match alts with
  | [] => none
  | a :: rest =>
    let pre := cs.take a.length
    if pre.length = a.length ∧ lowerL pre = lowerL a then some (pre, cs.drop a.length)
    else matchAltCI rest cs

/-- The unit alternation `kg|lb|cups?|tbsp|tsp|ml|oz|g|l|pcs?`, with the
greedy optional `s?` expanded to the long form first. -/
def unitNames : List (List Char) :=
  ["kg".data, "lb".data, "cups".data, "cup".data, "tbsp".data, "tsp".data,
   "ml".data, "oz".data, "g".data, "l".data, "pcs".data, "pc".data]

/-- The optional fraction `(?:\.\d+)?`: consume `.` followed by one or more
digits, else consume nothing. -/
def matchFracOpt (cs : List Char) : List Char × List Char :=
  match cs with
  | '.' :: rest =>
    let ds := rest.takeWhile isDigitJs
    if ds.isEmpty then ([], cs) else ('.' :: ds, rest.drop ds.length)
  | _ => ([], cs)

/-- The pieces of one linked-entry match: `[[ref]]`, the whitespace run, the
numeric value (group 2) and the unit token (group 3). -/
structure LinkedParts where
  ref : List Char
  ws : List Char
  value : List Char
  unit : List Char
  deriving DecidableEq, Repr

/-- The full matched text (`match[0]`) of a linked-entry match. -/
def LinkedParts.matched (p : LinkedParts) : List Char :=
  '[' :: '[' :: (p.ref ++ ']' :: ']' :: (p.ws ++ p.value ++ p.unit))

/-- `match[0].length` of a linked-entry match. -/
def LinkedParts.matchLen (p : LinkedParts) : Nat :=
  4 + p.ref.length + p.ws.length + p.value.length + p.unit.length

/-- Try the linked-entry regex anchored at the start of `cs`; on success
return the captured pieces and the remaining input. -/
def matchLinkedAt : List Char → Option (LinkedParts × List Char)
  | '[' :: '[' :: rest =>
    let ref := rest.takeWhile (fun c => ¬ c = ']')
    if ref.isEmpty then none
    else
      match rest.drop ref.length with
      | ']' :: ']' :: rest2 =>
        let ws := rest2.takeWhile jsIsSpace
        if ws.isEmpty then none
        else
          let rest3 := rest2.drop ws.length
          let ds := rest3.takeWhile isDigitJs
          if ds.isEmpty then none
          else
            let rest4 := rest3.drop ds.length
            let (frac, rest5) := matchFracOpt rest4
            match matchAltCI unitNames rest5 with
            | some (u, rest6) => some (⟨ref, ws, ds ++ frac, u⟩, rest6)
            | none => none
      | _ => none
  | _ => none

/-- `regex.exec` without the `g` flag: scan start positions left to right,
return the first successful match with its absolute index and the remaining
input after it. -/
def findFirstLinkedAux : List Char → Nat → Option (Nat × LinkedParts × List Char)
  | [], _ => none
  | c :: cs, i =>
    match matchLinkedAt (c :: cs) with
    | some (parts, rest) => some (i, parts, rest)
    | none => findFirstLinkedAux cs (i + 1)

/-- Global matching (`g` flag): repeatedly take the first match and resume
at `lastIndex` = end of the match.  The fuel is only a termination bound:
every match consumes at least six characters, so `length + 1` rounds are
never exhausted. -/
def findAllLinkedAux : Nat → List Char → Nat → List (Nat × LinkedParts)
  | 0, _, _ => []
  | fuel + 1, cs, i =>
    match findFirstLinkedAux cs i with
    | none => []
    | some (j, parts, rest) =>
      (j, parts) :: findAllLinkedAux fuel rest (j + parts.matchLen)

/-- All linked-entry matches of a line, in order, with absolute indices. -/
def findAllLinked (cs : List Char) : List (Nat × LinkedParts) :=
  findAllLinkedAux (cs.length + 1) cs 0

/-! ## Numeric literals

`parseFloat` on the exact decimal literals the grammars capture
(`-?\d+(\.\d+)?`), modelled exactly in `ℚ`.  The function is only ever
applied to matcher-produced literals of that shape. -/

/-- Digits to a natural number. -/
def natOfDigits (ds : List Char) : Nat :=
  ds.foldl (fun n c => n * 10 + (c.toNat - '0'.toNat)) 0

/-- `parseFloat` of a captured numeric literal `-?\d+(\.\d+)?`. -/
def ratOfNumChars (cs : List Char) : ℚ :=
  let (neg, body) := match cs with
    | '-' :: r => (true, r)
    | _ => (false, cs)
  let ip := body.takeWhile isDigitJs
  let rest := body.drop ip.length
  let frac : ℚ :=
    match rest with
    | '.' :: fs => (natOfDigits fs : ℚ) / (10 : ℚ) ^ fs.length
    | _ => 0
  let mag : ℚ := (natOfDigits ip : ℚ) + frac
  if neg then -mag else mag

/-- A linked food entry: `{ filename, amount, unit }`, the unit stored
lowercased as in `parseFoodEntriesFromLines`. -/
structure FoodEntry where
  filename : List Char
  amount : ℚ
  unit : List Char
  deriving DecidableEq, Repr

/-- `parseFoodEntriesFromLines`: first linked match per line (if any) becomes
an entry. -/
def parseFoodEntriesFromLines (lines : List (List Char)) : List FoodEntry :=
  lines.filterMap fun line =>
    (findFirstLinkedAux line 0).map fun r =>
      ⟨r.2.1.ref, ratOfNumChars r.2.1.value, lowerL r.2.1.unit⟩

/-! ## The inline-entry grammar

`parseInlineNutrientEntriesFromLines` runs, first-match per line,

`/(?!\[\[)([^\s][^\n]*?)\s+(-?\d+(?:\.\d+)?(?:kcal|fat|satfat|prot|carbs|sugar|fiber|sodium)(?:\s+-?\d+(?:\.\d+)?(?:kcal|…))*)/i`

The lazy `[^\n]*?` is modelled by trying the shortest extension of the
leading-text capture first; all other quantifiers are committed. -/

/-- The nutrient-tag alternation, in source order. -/
def tagNames : List (List Char) :=
  ["kcal".data, "fat".data, "satfat".data, "prot".data, "carbs".data,
   "sugar".data, "fiber".data, "sodium".data]

/-- One tight nutrient token `-?\d+(?:\.\d+)?<tag>` (no whitespace between
number and tag), as it appears inside group 2 of the inline-entry regex;
returns the consumed characters and the rest. -/
def matchNumTagTight (cs : List Char) : Option (List Char × List Char) :=
  let (sgn, body) := match cs with
    | '-' :: r => (['-'], r)
    | _ => (([] : List Char), cs)
  let ds := body.takeWhile isDigitJs
  if ds.isEmpty then none
  else
    let rest := body.drop ds.length
    let (frac, rest2) := matchFracOpt rest
    match matchAltCI tagNames rest2 with
    | some (t, rest3) => some (sgn ++ ds ++ frac ++ t, rest3)
    | none => none

/-- The greedy star `(?:\s+<token>)*`: keep consuming a nonempty whitespace
run followed by a tight token; stop (consuming nothing) as soon as either
fails.  Fuel is a termination bound; each round consumes ≥ 3 characters. -/
def matchTokensStar : Nat → List Char → List Char × List Char
  | 0, cs => ([], cs)
  | fuel + 1, cs =>
    let ws := cs.takeWhile jsIsSpace
    if ws.isEmpty then ([], cs)
    else
      match matchNumTagTight (cs.drop ws.length) with
      | some (tok, rest) =>
        let (more, rest2) := matchTokensStar fuel rest
        (ws ++ tok ++ more, rest2)
      | none => ([], cs)

/-- Group 2 of the inline-entry regex: one tight token followed by the
greedy star. -/
def matchTokens (cs : List Char) : Option (List Char × List Char) :=
  match matchNumTagTight cs with
  | some (tok, rest) =>
    let (more, rest2) := matchTokensStar rest.length rest
    some (tok ++ more, rest2)
  | none => none

/-- The lazy part of the inline-entry match after its first character: try
`\s+` + tokens immediately (shortest leading-text capture first); on failure
grow the capture by one (non-newline) character and retry.  Returns the
capture extension, the whitespace run, group 2 and the rest. -/
def inlineLazy : List Char → Option (List Char × List Char × List Char × List Char)
  | [] => none
  | y :: ys =>
    let cs := y :: ys
    let ws := cs.takeWhile jsIsSpace
    match (if ws.isEmpty then none
           else (matchTokens (cs.drop ws.length)).map fun p => (ws, p)) with
    | some (ws, g2, rest) => some ([], ws, g2, rest)
    | none =>
      if y = '\n' then none
      else (inlineLazy ys).map fun p => (y :: p.1, p.2.1, p.2.2.1, p.2.2.2)

/-- The pieces of one inline-entry match: the leading-text capture, the
whitespace run and the token run (group 2). -/
structure InlineParts where
  g1 : List Char
  ws : List Char
  g2 : List Char
  deriving DecidableEq, Repr

/-- The inline-entry regex anchored at the start of `cs`: the negative
lookahead `(?!\[\[)` must fail to see `[[`, the first captured character
must be `[^\s]`, then the lazy loop. -/
def matchInlineAt (cs : List Char) : Option InlineParts :=
  if "[[".data.isPrefixOf cs then none
  else
    match cs with
    | [] => none
    | c :: rest =>
      if jsIsSpace c then none
      else (inlineLazy rest).map fun p => ⟨c :: p.1, p.2.1, p.2.2.1⟩

/-- `regex.exec` (first match) for the inline-entry regex: scan start
positions left to right. -/
def findFirstInlineAux : List Char → Nat → Option (Nat × InlineParts)
  | [], _ => none
  | c :: cs, i =>
    match matchInlineAt (c :: cs) with
    | some parts => some (i, parts)
    | none => findFirstInlineAux cs (i + 1)

/-! ## Nutrient-token scanning

`parseNutrientString` and the highlight scanner both use the global regex
`/(-?\d+(?:\.\d+)?)\s*(kcal|fat|satfat|prot|carbs|sugar|fiber|sodium)/gi`
(note `\s*`, unlike the tight tokens of group 2 above). -/

/-- One match of the nutrient-token regex: absolute index, captured numeric
value (with sign), length of the `\s*` run, and the tag characters as they
appear in the input. -/
structure NutrientTok where
  idx : Nat
  value : List Char
  wsLen : Nat
  tag : List Char
  deriving DecidableEq, Repr

/-- `match[0].length` of a nutrient-token match. -/
def NutrientTok.matchLen (t : NutrientTok) : Nat :=
  t.value.length + t.wsLen + t.tag.length

/-- The nutrient-token regex anchored at the start of `cs`. -/
def matchNutrientAt (cs : List Char) :
    Option (List Char × List Char × List Char × List Char) :=
  let (sgn, body) := match cs with
    | '-' :: r => (['-'], r)
    | _ => (([] : List Char), cs)
  let ds := body.takeWhile isDigitJs
  if ds.isEmpty then none
  else
    let rest := body.drop ds.length
    let (frac, rest2) := matchFracOpt rest
    let ws := rest2.takeWhile jsIsSpace
    match matchAltCI tagNames (rest2.drop ws.length) with
    | some (t, rest3) => some (sgn ++ ds ++ frac, ws, t, rest3)
    | none => none

/-- First nutrient-token match at or after the current position. -/
def findFirstNutrientAux : List Char → Nat → Option (NutrientTok × List Char)
  | [], _ => none
  | c :: cs, i =>
    match matchNutrientAt (c :: cs) with
    | some (v, ws, t, rest) => some (⟨i, v, ws.length, t⟩, rest)
    | none => findFirstNutrientAux cs (i + 1)

/-- Global nutrient-token matching (`matchAll` / `g`-flag `exec` loop). -/
def findAllNutrientAux : Nat → List Char → Nat → List NutrientTok
  | 0, _, _ => []
  | fuel + 1, cs, i =>
    match findFirstNutrientAux cs i with
    | none => []
    | some (tok, rest) => tok :: findAllNutrientAux fuel rest (tok.idx + tok.matchLen)

/-- All nutrient-token matches of `cs`, in order. -/
def findAllNutrients (cs : List Char) : List NutrientTok :=
  findAllNutrientAux (cs.length + 1) cs 0

/-! ## The nutrient data model

`NutrientData` of `NutritionCalculator.ts`: eight optional nutrient fields
plus the optional `serving_size`.  Inline entries (`InlineNutrientEntry`)
are the same record with `serving_size` never populated. -/

/-- The nutrient keys (field names of `NutrientData`). -/
inductive NKey where
  | calories | fats | saturated_fats | protein | carbs | fiber | sugar | sodium
  | serving_size
  deriving DecidableEq, Repr

/-- `NutrientData` (and `InlineNutrientEntry`, which never populates
`serving_size`): every field optional, absence meaning "no data". -/
structure NutrientData where
  calories : Option ℚ := none
  fats : Option ℚ := none
  saturated_fats : Option ℚ := none
  protein : Option ℚ := none
  carbs : Option ℚ := none
  fiber : Option ℚ := none
  sugar : Option ℚ := none
  sodium : Option ℚ := none
  serving_size : Option ℚ := none
  deriving DecidableEq, Repr

/-- Field access by key. -/
def NutrientData.get (d : NutrientData) : NKey → Option ℚ
  | .calories => d.calories
  | .fats => d.fats
  | .saturated_fats => d.saturated_fats
  | .protein => d.protein
  | .carbs => d.carbs
  | .fiber => d.fiber
  | .sugar => d.sugar
  | .sodium => d.sodium
  | .serving_size => d.serving_size

/-- `Object.values(entry)` as used by the workout filter: the defined field
values, in field order. -/
def NutrientData.definedValues (d : NutrientData) : List ℚ :=
  [d.calories, d.fats, d.saturated_fats, d.protein, d.carbs, d.fiber,
   d.sugar, d.sodium, d.serving_size].filterMap id

/-- `Object.keys(d).length > 0`: does any field carry a value? -/
def NutrientData.hasAnyKey (d : NutrientData) : Bool :=
  d.calories.isSome ∨ d.fats.isSome ∨ d.saturated_fats.isSome ∨
  d.protein.isSome ∨ d.carbs.isSome ∨ d.fiber.isSome ∨ d.sugar.isSome ∨
  d.sodium.isSome ∨ d.serving_size.isSome

/-- One key-update of `addNutrients`:
`target[key] = (target[key] ?? 0) + source[key] * multiplier` when
`source[key]` is defined, else leave the target key untouched. -/
def addField (t s : Option ℚ) (m : ℚ) : Option ℚ :=
  match s with
  | some v => some (t.getD 0 + v * m)
  | none => t

/-- `addNutrients(target, source, multiplier)` — the per-key accumulation
loop, written out per field (each key is updated independently). -/
def addNutrients (target source : NutrientData) (multiplier : ℚ) : NutrientData where
  calories := addField target.calories source.calories multiplier
  fats := addField target.fats source.fats multiplier
  saturated_fats := addField target.saturated_fats source.saturated_fats multiplier
  protein := addField target.protein source.protein multiplier
  carbs := addField target.carbs source.carbs multiplier
  fiber := addField target.fiber source.fiber multiplier
  sugar := addField target.sugar source.sugar multiplier
  sodium := addField target.sodium source.sodium multiplier
  serving_size := addField target.serving_size source.serving_size multiplier

/-- `nutrientKeyMap`: lowercased tag → nutrient key. -/
def nutrientKeyMap (tag : List Char) : Option NKey :=
  if tag = "kcal".data then some .calories
  else if tag = "fat".data then some .fats
  else if tag = "satfat".data then some .saturated_fats
  else if tag = "prot".data then some .protein
  else if tag = "carbs".data then some .carbs
  else if tag = "sugar".data then some .sugar
  else if tag = "fiber".data then some .fiber
  else if tag = "sodium".data then some .sodium
  else none

/-- `nutrientData[key] = (nutrientData[key] ?? 0) + value`. -/
def NutrientData.bump (d : NutrientData) (k : NKey) (v : ℚ) : NutrientData :=
  match k with
  | .calories => { d with calories := some (d.calories.getD 0 + v) }
  | .fats => { d with fats := some (d.fats.getD 0 + v) }
  | .saturated_fats => { d with saturated_fats := some (d.saturated_fats.getD 0 + v) }
  | .protein => { d with protein := some (d.protein.getD 0 + v) }
  | .carbs => { d with carbs := some (d.carbs.getD 0 + v) }
  | .fiber => { d with fiber := some (d.fiber.getD 0 + v) }
  | .sugar => { d with sugar := some (d.sugar.getD 0 + v) }
  | .sodium => { d with sodium := some (d.sodium.getD 0 + v) }
  | .serving_size => { d with serving_size := some (d.serving_size.getD 0 + v) }

/-- `parseNutrientString`: scan all nutrient tokens of the captured token
run and accumulate them key-wise (repeated tags on one line sum). -/
def parseNutrientString (cs : List Char) : NutrientData :=
  (findAllNutrients cs).foldl
    (fun d tok =>
      match nutrientKeyMap (lowerL tok.tag) with
      | some k => d.bump k (ratOfNumChars tok.value)
      | none => d)
    {}

/-- `parseInlineNutrientEntriesFromLines`: first inline-entry match per
line; the token run is parsed and kept when it produced at least one key. -/
def parseInlineNutrientEntriesFromLines (lines : List (List Char)) :
    List NutrientData :=
  lines.filterMap fun line =>
    match findFirstInlineAux line 0 with
    | some r =>
      let nd := parseNutrientString r.2.g2
      if nd.hasAnyKey then some nd else none
    | none => none

/-! ## UnitConverter

Modelled from the spec: `getUnitMultiplier` lives in `constants.ts`, which is
not part of the sources; §4.2 fixes the contract (per-100 baseline, a fixed
unit→grams-or-millilitres table, `pc(s)` multiplying by the reference serving
size defaulting to 1) and §8 pins `g ↦ 1`, `l ↦ 1000` and the `pc` rule.
The remaining table entries (standard culinary equivalents) are not pinned by
the spec; no claim depends on them.  Units are normalised (case, `cups`/`pcs`
plurals) before the table lookup. -/
def getUnitMultiplier (amount : ℚ) (unit : List Char) (servingSize : Option ℚ) : ℚ :=
  let u := lowerL unit
  let u := if u = "cups".data then "cup".data else if u = "pcs".data then "pc".data else u
  if u = "pc".data then amount * servingSize.getD 1 / 100
  else
    let factor : ℚ :=
      if u = "g".data then 1
      else if u = "kg".data then 1000
      else if u = "ml".data then 1
      else if u = "l".data then 1000
      else if u = "oz".data then 2835 / 100
      else if u = "lb".data then 453592 / 1000
      else if u = "cup".data then 240
      else if u = "tbsp".data then 15
      else if u = "tsp".data then 5
      else 1
    amount * factor / 100

/-! ## NutritionAggregator -/

/-- Outcome of one `getNutritionData(filename)` call: a data record, `null`,
or a thrown error (carrying its message). -/
inductive LookupRes where
  | data (d : NutrientData)
  | nullRes
  | throws (msg : String)

/-- The body of the `calculateTotals` loop, with the `handleReadError`
callback reified as an invocation log: a throwing lookup logs
`(filename, error)` and contributes nothing, a `null` lookup contributes
nothing silently, a successful lookup is scaled by the unit multiplier and
accumulated. -/
def totalsStep (lookup : List Char → LookupRes)
    (acc : NutrientData × List (List Char × String)) (e : FoodEntry) :
    NutrientData × List (List Char × String) :=
  match lookup e.filename with
  | .throws msg => (acc.1, acc.2 ++ [(e.filename, msg)])
  | .nullRes => acc
  | .data d =>
    (addNutrients acc.1 d (getUnitMultiplier e.amount e.unit d.serving_size), acc.2)

/-- `calculateTotals` of `NutritionCalculator.ts`: fold the per-entry step
over the linked entries, starting from empty totals and an empty error
log. -/
def calculateTotals (entries : List FoodEntry) (lookup : List Char → LookupRes) :
    NutrientData × List (List Char × String) :=
  entries.foldl (totalsStep lookup) ({}, [])

/-- `calculateInlineTotals`: key-wise sum of the inline entries. -/
def calculateInlineTotals (entries : List NutrientData) : NutrientData :=
  entries.foldl (fun t e => addNutrients t e 1) {}

/-- `filterValidWorkoutEntries`: keep an entry iff some defined value is
positive and the calories, if defined, are non-negative. -/
def filterValidWorkoutEntries (entries : List NutrientData) : List NutrientData :=
  entries.filter fun e =>
    e.definedValues.any (fun v => 0 < v) &&
      (match e.calories with
       | none => true
       | some v => 0 ≤ v)

/-- `combineNutrients`: copy of the first record, then `addNutrients` of the
second with the default multiplier 1. -/
def combineNutrients (n1 n2 : NutrientData) : NutrientData :=
  addNutrients n1 n2 1

/-- `clampNutrientsToZero`: floor every defined key at zero. -/
def clampNutrientsToZero (d : NutrientData) : NutrientData where
  calories := d.calories.map (max 0)
  fats := d.fats.map (max 0)
  saturated_fats := d.saturated_fats.map (max 0)
  protein := d.protein.map (max 0)
  carbs := d.carbs.map (max 0)
  fiber := d.fiber.map (max 0)
  sugar := d.sugar.map (max 0)
  sodium := d.sodium.map (max 0)
  serving_size := d.serving_size.map (max 0)

/-- `Math.round`: round half toward `+∞` (`⌊x + 1/2⌋`). -/
def jround (q : ℚ) : ℤ := ⌊q + 1 / 2⌋

/-- `NutrientGoalProgress`: `{ remaining, percentConsumed, percentRemaining }`. -/
structure GoalRec where
  remaining : ℚ
  percentConsumed : ℚ
  percentRemaining : ℚ
  deriving DecidableEq, Repr

/-- `NutrientGoals`: optional goal per nutrient key (no serving size). -/
structure Goals where
  calories : Option ℚ := none
  fats : Option ℚ := none
  saturated_fats : Option ℚ := none
  protein : Option ℚ := none
  carbs : Option ℚ := none
  fiber : Option ℚ := none
  sugar : Option ℚ := none
  sodium : Option ℚ := none
  deriving DecidableEq, Repr

/-- Goal access by key (`serving_size` is not a goal key). -/
def Goals.get (g : Goals) : NKey → Option ℚ
  | .calories => g.calories
  | .fats => g.fats
  | .saturated_fats => g.saturated_fats
  | .protein => g.protein
  | .carbs => g.carbs
  | .fiber => g.fiber
  | .sugar => g.sugar
  | .sodium => g.sodium
  | .serving_size => none

/-- The `Record<nutrient key, NutrientGoalProgress>` being built. -/
def ProgressMap := NKey → Option GoalRec

/-- `progress[key] = rec`. -/
def setProg (m : ProgressMap) (k : NKey) (v : GoalRec) : ProgressMap :=
  fun k' => if k' = k then some v else m k'

/-- The `nutrientKeys` array iterated by `calculateGoalProgress`, in source
order. -/
def progressKeys : List NKey :=
  [.calories, .fats, .saturated_fats, .protein, .carbs, .fiber, .sugar, .sodium]

/-- The record built by one `calculateGoalProgress` iteration for goal
`goal` and consumed value `c`:
`remaining = goal - c`,
`percentConsumed = Math.round(c / goal * 100)` guarded by `goal > 0`,
`percentRemaining = Math.max(0, Math.round(remaining / goal * 100))` guarded
by `goal > 0`. -/
def mkGoalRec (goal c : ℚ) : GoalRec where
  remaining := goal - c
  percentConsumed := if 0 < goal then ((jround (c / goal * 100) : ℤ) : ℚ) else 0
  percentRemaining :=
    if 0 < goal then ((max 0 (jround ((goal - c) / goal * 100)) : ℤ) : ℚ) else 0

/-- One iteration of the `calculateGoalProgress` loop at key `k`: a record
is added exactly when the goal for `k` is defined. -/
def goalStep (consumed : NutrientData) (goals : Goals) (acc : ProgressMap) (k : NKey) :
    ProgressMap :=
  match goals.get k with
  | some goal => setProg acc k (mkGoalRec goal ((consumed.get k).getD 0))
  | none => acc

/-- `calculateGoalProgress(consumed, goals)`: walk the fixed key list,
adding a record for each key whose goal is defined. -/
def calculateGoalProgress (consumed : NutrientData) (goals : Goals) : ProgressMap :=
  progressKeys.foldl (goalStep consumed goals) (fun _ => none)

/-- `NutritionCalculationResult`. -/
structure CalcResult where
  linkedTotals : NutrientData
  inlineTotals : NutrientData
  workoutTotals : NutrientData
  combinedTotals : NutrientData
  clampedTotals : NutrientData
  goalProgress : Option ProgressMap

/-- `calculateNutritionTotals` of `NutritionCalculator.ts`.  The dead
`foodTag` / `workoutTag` parameters (their escaped forms are computed by the
source but never used) are omitted; the error callback is the log inside
`calculateTotals`.  `workoutEntries` is the hard-coded empty list of line
106 (its downstream filter/subtract block is kept verbatim although
unreachable). -/
def calculateNutritionTotals (content : String) (lookup : List Char → LookupRes)
    (goals : Option Goals) : Option CalcResult :=
  let foodLogLines := extractLinesUnderHeading content "Food Log"
  let foodEntries := parseFoodEntriesFromLines foodLogLines
  let inlineEntries := parseInlineNutrientEntriesFromLines foodLogLines
  let workoutEntries : List NutrientData := []
  if foodEntries.isEmpty ∧ inlineEntries.isEmpty ∧ workoutEntries.isEmpty then none
  else
    let linkedTotals := (calculateTotals foodEntries lookup).1
    let inlineTotals0 := calculateInlineTotals inlineEntries
    let iw : NutrientData × NutrientData :=
      if 0 < workoutEntries.length then
        let valid := filterValidWorkoutEntries workoutEntries
        if 0 < valid.length then
          let wt := calculateInlineTotals valid
          (if wt.hasAnyKey then addNutrients inlineTotals0 wt (-1) else inlineTotals0, wt)
        else (inlineTotals0, {})
      else (inlineTotals0, {})
    let combinedTotals := combineNutrients linkedTotals iw.1
    let clampedTotals := clampNutrientsToZero combinedTotals
    some
      { linkedTotals := linkedTotals
        inlineTotals := iw.1
        workoutTotals := iw.2
        combinedTotals := combinedTotals
        clampedTotals := clampedTotals
        goalProgress := goals.map (calculateGoalProgress clampedTotals) }

/-! ## Claims about the aggregator -/

/-- **C3.** `calculateNutritionTotals` returns `null` exactly when the
extracted Food Log section yields no linked and no inline entries; and for
every text in which no line is a level-2 heading whose trimmed title matches
the target case-insensitively, the extractor returns the empty sequence and
the aggregator returns `null`. -/
theorem calc_none_iff_no_entries (content : String) (lookup : List Char → LookupRes)
    (goals : Option Goals) :
    (calculateNutritionTotals content lookup goals = none ↔
      (parseFoodEntriesFromLines (extractLinesUnderHeading content "Food Log") = [] ∧
       parseInlineNutrientEntriesFromLines (extractLinesUnderHeading content "Food Log") = [])) ∧
    ((∀ l ∈ splitNl content.data, isTargetHeading "Food Log".data l = false) →
      extractLinesUnderHeading content "Food Log" = [] ∧
      calculateNutritionTotals content lookup goals = none) := by
  have main : calculateNutritionTotals content lookup goals = none ↔
      (parseFoodEntriesFromLines (extractLinesUnderHeading content "Food Log") = [] ∧
       parseInlineNutrientEntriesFromLines (extractLinesUnderHeading content "Food Log") = []) := by
    unfold calculateNutritionTotals
    by_cases h1 : parseFoodEntriesFromLines (extractLinesUnderHeading content "Food Log") = [] <;>
      by_cases h2 :
        parseInlineNutrientEntriesFromLines (extractLinesUnderHeading content "Food Log") = [] <;>
      simp [h1, h2]
  refine ⟨main, fun hno => ?_⟩
  have hext : extractLinesUnderHeading content "Food Log" = [] := by
    unfold extractLinesUnderHeading
    exact extractAux_eq_nil_of_no_target _ _ hno
  refine ⟨hext, main.mpr ?_⟩
  rw [hext]
  exact ⟨rfl, rfl⟩

/-- Witness for `calc_none_iff_no_entries`: a document with no Food Log
heading yields an empty section and a `null` aggregation result. -/
theorem calc_none_witness :
    calculateNutritionTotals "Regular note without Food Log heading."
        (fun _ => .nullRes) none = none ∧
    extractLinesUnderHeading "Regular note without Food Log heading." "Food Log" = [] :=
  have h := (calc_none_iff_no_entries "Regular note without Food Log heading."
    (fun _ => .nullRes) none).2 (by decide)
  ⟨h.2, h.1⟩

/-- **C1 (code evidence).** The inline entry parsed from `Run 30prot`
qualifies as a workout entry (`filterValidWorkoutEntries` keeps it), yet the
aggregation result has an *empty* `workoutTotals` and an *unreduced*
`inlineTotals` — because `calculateNutritionTotals` hard-codes
`workoutEntries = []`, so the separate workout totals and the subtraction
described by the claim never happen. -/
theorem workout_subtraction_never_happens :
    (calculateNutritionTotals "## Food Log\nRun 30prot" (fun _ => .nullRes) none).map
        (fun r => (r.workoutTotals, r.inlineTotals.protein)) =
      some (({} : NutrientData), some 30) ∧
    filterValidWorkoutEntries
        (parseInlineNutrientEntriesFromLines
          (extractLinesUnderHeading "## Food Log\nRun 30prot" "Food Log")) =
      [{ protein := some 30 }] := by
  constructor <;> with_unfolding_all decide

/-- The totals component of the fold does not depend on the accumulated
error log. -/
theorem calcTotals_fst_log_irrelevant (lookup : List Char → LookupRes)
    (entries : List FoodEntry) :
    ∀ (t : NutrientData) (log log' : List (List Char × String)),
      (entries.foldl (totalsStep lookup) (t, log)).1 =
        (entries.foldl (totalsStep lookup) (t, log')).1 := by
  induction entries with
  | nil => intro t log log'; rfl
  | cons e es ih =>
    intro t log log'
    cases h : lookup e.filename <;> simp [totalsStep, h] <;> exact ih _ _ _

/-- The error log accumulated by the fold is the in-order list of throwing
entries. -/
theorem calcTotals_snd_spec (lookup : List Char → LookupRes)
    (entries : List FoodEntry) :
    ∀ (t : NutrientData) (log : List (List Char × String)),
      (entries.foldl (totalsStep lookup) (t, log)).2 =
        log ++ entries.filterMap (fun e =>
          match lookup e.filename with
          | .throws msg => some (e.filename, msg)
          | _ => none) := by
  induction entries with
  | nil => intro t log; simp
  | cons e es ih =>
    intro t log
    cases h : lookup e.filename <;> simp [totalsStep, h, ih, List.filterMap_cons]

/-- Failing entries do not change the totals component of the fold. -/
theorem calcTotals_fst_filter (lookup : List Char → LookupRes)
    (entries : List FoodEntry) :
    ∀ (t : NutrientData) (log log' : List (List Char × String)),
      (entries.foldl (totalsStep lookup) (t, log)).1 =
        ((entries.filter fun e =>
            match lookup e.filename with
            | .data _ => true
            | _ => false).foldl (totalsStep lookup) (t, log')).1 := by
  induction entries with
  | nil => intro t log log'; rfl
  | cons e es ih =>
    intro t log log'
    cases h : lookup e.filename <;>
      simp [totalsStep, h, List.filter_cons] <;> exact ih _ _ _

/-- **C7 (amended).** For every list of linked entries: the error callback
is invoked exactly once per *throwing* entry, in order, with
`(reference, error)`; a lookup that returns `null` is skipped silently
without a callback; every failing entry (throwing or `null`) contributes
nothing to `linkedTotals`, whose value is the aggregation of the
successfully resolved entries alone — no lookup failure aborts the
aggregation. -/
theorem lookup_failure_isolation (entries : List FoodEntry)
    (lookup : List Char → LookupRes) :
    (calculateTotals entries lookup).2 =
      entries.filterMap (fun e =>
        match lookup e.filename with
        | .throws msg => some (e.filename, msg)
        | _ => none) ∧
    (calculateTotals entries lookup).1 =
      (calculateTotals
        (entries.filter fun e =>
          match lookup e.filename with
          | .data _ => true
          | _ => false) lookup).1 := by
  constructor
  · simpa using calcTotals_snd_spec lookup entries {} []
  · exact calcTotals_fst_filter lookup entries {} [] []

/-- **C7 (counterexample).** A lookup *failure* that is a `null` return
(food not found), not a throw: the entry is skipped, but the error callback
is invoked zero times — not "exactly once for that entry" as the claim
states for lookup failures. -/
theorem null_lookup_no_callback_counterexample :
    calculateTotals [⟨"apple".data, 1, "g".data⟩] (fun _ => .nullRes) =
      (({} : NutrientData), []) := by
  with_unfolding_all decide

/-- Reading `goalStep` at a key: the step at `k'` writes (only) `k'`, and
only when that goal is defined. -/
theorem goalStep_get (consumed : NutrientData) (goals : Goals) (acc : ProgressMap)
    (k' k : NKey) :
    goalStep consumed goals acc k' k =
      if k = k' then
        match goals.get k' with
        | some goal => some (mkGoalRec goal ((consumed.get k').getD 0))
        | none => acc k
      else acc k := by
  cases hg : goals.get k' <;> by_cases hk : k = k' <;> simp [goalStep, setProg, hg, hk]

/-- **C8 (amended).** `goalProgress` contains a record for each key whose
goal is defined and for no other key, and that record is exactly
`remaining = goal - consumed`,
`percentConsumed = round(consumed/goal × 100)` when `goal > 0` and `0`
otherwise (hence `0` also for a zero goal), and
`percentRemaining = max(0, round(remaining/goal × 100))` when `goal > 0`
and `0` otherwise, with `consumed` read from the totals record it is given
(the clamped totals in `calculateNutritionTotals`) and defaulting to `0`
when absent. -/
theorem goalProgress_characterization (consumed : NutrientData) (goals : Goals)
    (k : NKey) :
    calculateGoalProgress consumed goals k =
      (goals.get k).map fun goal => mkGoalRec goal ((consumed.get k).getD 0) := by
  cases k <;>
    simp only [calculateGoalProgress, progressKeys, List.foldl_cons, List.foldl_nil,
      goalStep_get] <;>
    simp only [reduceCtorEq, reduceIte, if_true, if_false] <;>
    first
      | rfl
      | (cases goals.get _ <;> rfl)

/-- **C8 (counterexample).** For a *negative* goal (a key present in goals),
the code returns `percentConsumed = 0`, while the claim's formula — only
excepted at goal `= 0` — demands `round(consumed/goal × 100) = round(-50) =
-50`. -/
theorem negative_goal_percent_counterexample :
    (calculateGoalProgress { calories := some 50 } { calories := some (-100) }
        NKey.calories).map (fun r => r.percentConsumed) = some 0 ∧
    jround ((50 : ℚ) / (-100) * 100) = -50 := by
  constructor <;> with_unfolding_all decide

/-! ## Highlight ranges (`FoodHighlightCore.extractFoodHighlightRanges`)

Global matching of the linked regex and of the nutrient-token regex over one
line; every linked match yields an `amount` range computed from
`match[0].indexOf(match[2])` with end `… + match[2].length + match[3].length
+ 1`; every nutrient token yields a `nutrition` range covering exactly
`match[0]`; both offset by the line's start position. -/

/-- The two highlight kinds. -/
inductive HLType where
  | amount | nutrition
  deriving DecidableEq, Repr

/-- A highlight range; `stop` models the source field `end` (a keyword in
Lean).  Ranges are half-open `[start, stop)` as consumed by the decoration
and wrapping code. -/
structure HighlightRange where
  start : Nat
  stop : Nat
  type : HLType
  deriving DecidableEq, Repr

/-- `hay.indexOf(pat)` for the case where `pat` occurs in `hay` (the only
case exercised: the captured value is a substring of the match).  When `pat`
does not occur the JS result is `-1`; this total model returns `hay.length`
then, a case no caller reaches. -/
def idxOfSub (hay pat : List Char) : Nat :=
  if pat.isPrefixOf hay then 0
  else
    match hay with
    | [] => 0
    | _ :: t => idxOfSub t pat + 1

/-- `extractFoodHighlightRanges(text, lineStart)` (the unused `options`
parameter is dropped): all `amount` ranges then all `nutrition` ranges, as
pushed by the two `while` loops. -/
def extractFoodHighlightRanges (text : List Char) (lineStart : Nat) :
    List HighlightRange :=
  ((findAllLinked text).map fun m =>
    let amountStart := lineStart + m.1 + idxOfSub m.2.matched m.2.value
    { start := amountStart
      stop := amountStart + m.2.value.length + m.2.unit.length + 1
      type := HLType.amount }) ++
  ((findAllNutrients text).map fun t =>
    { start := lineStart + t.idx
      stop := lineStart + t.idx + t.matchLen
      type := HLType.nutrition })

/-- `extractMultilineHighlightRanges(text, startOffset)`: ranges of every
Food Log section line, each offset by `startOffset +` the line's offset. -/
def extractMultilineHighlightRanges (text : String) (startOffset : Nat) :
    List HighlightRange :=
  (extractLinesUnderHeadingWithOffsets text "Food Log").flatMap fun lo =>
    extractFoodHighlightRanges lo.1 (startOffset + lo.2)

/-- **C5 (amended).** For every line and line-start offset, the produced
ranges are exactly: for each linked match (global scan, in order) an
`amount` range whose start is the first occurrence of the value string
inside the matched text — equal to the structural start of the numeric value
(`[[` + reference + `]]` + whitespace) whenever the value string does not
occur earlier in the match, which the hypothesis states — and whose end is
*one character past* the end of the unit token; and for each nutrient token
(global scan, in order) a `nutrition` range spanning exactly the token; all
offset by the line's start position. -/
theorem highlight_ranges_spec (text : List Char) (lineStart : Nat)
    (hidx : ∀ m ∈ findAllLinked text,
      idxOfSub (m.2).matched (m.2).value = 4 + (m.2).ref.length + (m.2).ws.length) :
    extractFoodHighlightRanges text lineStart =
      ((findAllLinked text).map fun m =>
        { start := lineStart + m.1 + (4 + (m.2).ref.length + (m.2).ws.length)
          stop := lineStart + m.1 + (4 + (m.2).ref.length + (m.2).ws.length) +
            (m.2).value.length + (m.2).unit.length + 1
          type := HLType.amount }) ++
      ((findAllNutrients text).map fun t =>
        { start := lineStart + t.idx
          stop := lineStart + t.idx + t.matchLen
          type := HLType.nutrition }) := by
  unfold extractFoodHighlightRanges
  congr 1
  exact List.map_congr_left fun m hm => by rw [hidx m hm]

/-- Witness for `highlight_ranges_spec` on `[[Apple]] 150g` at line start 7:
the single amount range starts at the numeric value (offset 17) and stops
one past the unit (offset 22). -/
theorem highlight_ranges_spec_witness :
    extractFoodHighlightRanges "[[Apple]] 150g".data 7 =
      [{ start := 17, stop := 22, type := HLType.amount }] := by
  rw [highlight_ranges_spec "[[Apple]] 150g".data 7 (by decide)]
  decide

/-- **C5 (counterexample).** On `[[Apple]] 150g` the value+unit token
`150g` occupies the half-open interval `[10, 14)`, but the produced amount
range is `[10, 15)` — one character longer than "exactly from the start of
the numeric value through the end of the unit token" (the convention under
which the nutrition ranges are exact). -/
theorem amount_range_off_by_one_counterexample :
    extractFoodHighlightRanges "[[Apple]] 150g".data 0 =
      [{ start := 10, stop := 15, type := HLType.amount }] ∧
    ("[[Apple]] 150g".data.drop 10 = "150g".data ∧ 10 + "150g".data.length = 14) ∧
    extractFoodHighlightRanges "x 5kcal".data 0 =
      [{ start := 2, stop := 7, type := HLType.nutrition }] ∧
    "x 5kcal".data.drop 2 = "5kcal".data ∧ 2 + "5kcal".data.length = 7 := by
  refine ⟨by decide, ⟨by decide, by decide⟩, by decide, by decide, by decide⟩

/-! ## The inline-entry lookahead (C6) -/

/-- A successful scan result points at a position where the anchored matcher
succeeds. -/
theorem findFirstInlineAux_spec (cs : List Char) :
    ∀ (j i : Nat) (parts : InlineParts), findFirstInlineAux cs j = some (i, parts) →
      j ≤ i ∧ matchInlineAt (cs.drop (i - j)) = some parts := by
  induction cs with
  | nil => intro j i parts h; cases h
  | cons c cs ih =>
    intro j i parts h
    rw [findFirstInlineAux] at h
    cases hm : matchInlineAt (c :: cs) with
    | some p =>
      rw [hm] at h
      obtain ⟨rfl, rfl⟩ : j = i ∧ p = parts := by
        constructor <;> [exact (Prod.mk.injEq _ _ _ _ ▸ Option.some.injEq _ _ ▸ h).1;
          exact (Prod.mk.injEq _ _ _ _ ▸ Option.some.injEq _ _ ▸ h).2]
      simpa [Nat.sub_self] using hm
    | none =>
      rw [hm] at h
      obtain ⟨hle, hmatch⟩ := ih (j + 1) i parts h
      refine ⟨by omega, ?_⟩
      have hdrop : (c :: cs).drop (i - j) = cs.drop (i - (j + 1)) := by
        have : i - j = (i - (j + 1)) + 1 := by omega
        rw [this, List.drop_succ_cons]
      rw [hdrop]
      exact hmatch

/-- **C6 (amended).** An inline-entry match never starts at a position
immediately followed by `[[` (the negative lookahead); in particular, on a
line that begins with `[[` the match never starts at position 0 — but the
scan may still succeed at a later position of such a line, so the line can
still contribute an inline entry. -/
theorem inline_match_not_at_brackets (line : List Char) (i : Nat)
    (parts : InlineParts) (h : findFirstInlineAux line 0 = some (i, parts)) :
    ¬ "[[".data.isPrefixOf (line.drop i) ∧
    ("[[".data.isPrefixOf line → i ≠ 0) := by
  obtain ⟨-, hm⟩ := findFirstInlineAux_spec line 0 i parts h
  rw [Nat.sub_zero] at hm
  have hnotpre : ¬ "[[".data.isPrefixOf (line.drop i) := by
    intro hpre
    rw [matchInlineAt.eq_def, if_pos hpre] at hm
    cases hm
  refine ⟨hnotpre, fun hpre hi => hnotpre ?_⟩
  rw [hi, List.drop_zero]
  exact hpre

/-- Witness for `inline_match_not_at_brackets`: on `[[run]] 150kcal` the
match starts at position 1, not 0. -/
theorem inline_match_not_at_brackets_witness :
    ¬ "[[".data.isPrefixOf ("[[run]] 150kcal".data.drop 1) ∧
    ("[[".data.isPrefixOf "[[run]] 150kcal".data → (1 : Nat) ≠ 0) :=
  inline_match_not_at_brackets "[[run]] 150kcal".data 1
    ⟨"[run]]".data, " ".data, "150kcal".data⟩ (by decide)

/-- **C6 (counterexample).** A section line beginning with `[[` *does*
contribute an inline entry: on `[[run]] 150kcal` the scan skips position 0
(blocked by the lookahead) but matches at position 1, producing the entry
`{ calories: 150 }`. -/
theorem bracket_line_inline_entry_counterexample :
    parseInlineNutrientEntriesFromLines
        (extractLinesUnderHeading "## Food Log\n[[run]] 150kcal" "Food Log") =
      [{ calories := some 150 }] ∧
    "[[".data.isPrefixOf "[[run]] 150kcal".data = true := by
  constructor <;> with_unfolding_all decide

/-! ## The rendered presentation tree (`FoodHighlightPostProcessor.ts`)

A DOM subtree as the post-processor sees it: text nodes, and elements with a
tag name, class list, optional `data-href` attribute and children.  `<br>`
is the element with tag `BR` (DOM `tagName` is uppercase). -/

/-- A presentation-tree node. -/
inductive DNode where
  | text (s : List Char)
  | elem (tag : List Char) (classes : List (List Char)) (dataHref : Option (List Char))
      (children : List DNode)

mutual

/-- `node.textContent`: concatenation of all descendant text nodes. -/
def DNode.textContent : DNode → List Char
  | .text s => s
  | .elem _ _ _ cs => DNode.textContentL cs

/-- `textContent` of a node list. -/
def DNode.textContentL : List DNode → List Char
  | [] => []
  | n :: ns => n.textContent ++ DNode.textContentL ns

end

mutual

/-- One node's contribution to `reconstructMarkdownText`: a text node its
characters; a prior calorie hint (`food-tracker-inline-calories`) nothing,
subtree skipped; an `internal-link` the wikilink form `[[href]]` (falling
back to its visible text), subtree skipped; a `tag` element its visible
text, subtree skipped; `<br>` a newline; any other element the
contributions of its children. -/
def reconNode : DNode → List Char
  | .text s => s
  | .elem tag classes href cs =>
    if "food-tracker-inline-calories".data ∈ classes then []
    else if "internal-link".data ∈ classes then
      '[' :: '[' :: ((href.getD (DNode.textContentL cs)) ++ [']', ']'])
    else if "tag".data ∈ classes then DNode.textContentL cs
    else if tag = "BR".data then ['\n']
    else reconL cs

/-- Contributions of a node list, in document order. -/
def reconL : List DNode → List Char
  | [] => []
  | n :: ns => reconNode n ++ reconL ns

end

/-- `reconstructMarkdownText(container)`: the contributions of the
container's descendants (the tree walker starts below its root). -/
def reconstructMarkdownText : DNode → List Char
  | .text s => s
  | .elem _ _ _ cs => reconL cs

/-- One line of `/^##\s*Food Log$/im`: exactly `##`, optional whitespace,
then `Food Log` case-insensitively, to the end of the line. -/
def isFoodLogHeadingLine (l : List Char) : Bool :=
  match l with
  | '#' :: '#' :: rest => lowerL (rest.dropWhile jsIsSpace) = "food log".data
  | _ => false

/-- `containsRelevantTags(text)`: some line of the text is a `## Food Log`
heading (the `m` flag makes `^…$` per-line). -/
def containsRelevantTags (t : List Char) : Bool :=
  (splitNl t).any isFoodLogHeadingLine

/-- `el.matches("p, li, div.HyperMD-list-line")`. -/
def matchesContainerSel : DNode → Bool
  | .text _ => false
  | .elem tag classes _ _ =>
    tag = "p".data ∨ tag = "li".data ∨
      (tag = "div".data ∧ "HyperMD-list-line".data ∈ classes)

mutual

/-- `el.querySelectorAll("p, li, div.HyperMD-list-line")` over one node's
descendants, in document (pre-)order. -/
def descendantContainers : DNode → List DNode
  | .text _ => []
  | .elem _ _ _ cs => descendantContainersL cs

/-- Matching descendants of a node list. -/
def descendantContainersL : List DNode → List DNode
  | [] => []
  | n :: ns =>
    (if matchesContainerSel n then [n] else []) ++ descendantContainers n ++
      descendantContainersL ns

end

/-- The container list of `FoodHighlightPostProcessor.process`: the element
itself if it matches the selector, else its matching descendants. -/
def collectContainers (el : DNode) : List DNode :=
  if matchesContainerSel el then [el] else descendantContainers el

/-- The per-container loop of `FoodHighlightPostProcessor.process`.  A
container whose reconstructed text is empty or has no `## Food Log` line is
skipped (`continue`).  For any other container the next statement executed
is `if (settings.showCalorieHints)` — and `settings` is a free identifier,
declared neither in the module nor in any of its imports (the class only
has `settingsService`), so evaluating it throws a `ReferenceError`.  No
`try`/`catch` encloses the loop (or anything else in `process`), so the
exception propagates to the caller; the highlighting and hint-insertion
statements below that line are unreachable for qualifying containers. -/
def processContainers : List DNode → Except String Unit
  | [] => .ok ()
  | c :: cs =>
    let t := reconstructMarkdownText c
    if t = [] ∨ containsRelevantTags t = false then processContainers cs
    else .error "ReferenceError: settings is not defined"

/-- `FoodHighlightPostProcessor.process(el, ctx)` as seen by its caller:
either it returns normally, or the `ReferenceError` escapes. -/
def processPass (el : DNode) : Except String Unit :=
  processContainers (collectContainers el)

/-- **C2 (code evidence).** A reconciliation pass over a rendered paragraph
whose reconstructed text contains the Food Log heading *does* propagate an
exception to its caller — the `ReferenceError` from the undeclared
`settings` identifier, with no `try`/`catch` at the pass boundary — instead
of degrading to "no visible change" as the claim states. -/
theorem process_throws_on_food_log_container :
    processPass
        (DNode.elem "p".data [] none
          [DNode.text "## Food Log".data,
           DNode.elem "BR".data [] none [],
           DNode.text "[[apple]] 100g".data]) =
      Except.error "ReferenceError: settings is not defined" := by
  rfl

/-! ## Calorie-hint extraction (`FoodHighlightCore.extractInlineCalorieAnnotations`)

For each linked match of each Food Log line: reject non-positive amounts,
normalise the reference (`split("|")[0].split("#")[0].split("/").pop().trim()`),
resolve calories-per-100 and serving size through the provider, reject
negative or rejected results, and emit `(end-of-line position,
"{rounded}kcal")`.  The `isFinite` guards of the source are vacuous in the
exact rational model. -/

/-- The external calorie provider interface. -/
structure CalorieProvider where
  getCaloriesForFood : List Char → Option ℚ
  getServingSize : List Char → Option ℚ

/-- Reference normalisation: strip the alias after `|`, the anchor after
`#`, take the last `/`-segment, trim it; `none` when the result is empty. -/
def normalizeFileName (raw : List Char) : Option (List Char) :=
  let s1 := raw.takeWhile (fun c => ¬ c = '|')
  let s2 := s1.takeWhile (fun c => ¬ c = '#')
  let s3 := (s2.reverse.takeWhile (fun c => ¬ c = '/')).reverse
  let t := jsTrim s3
  if t = [] then none else some t

/-- `extractInlineCalorieAnnotations(text, startOffset, provider)`:
`(position, hint text)` pairs, position anchored at the end of the source
line. -/
def extractInlineCalorieAnnotations (text : String) (startOffset : Nat)
    (provider : CalorieProvider) : List (Nat × List Char) :=
  (extractLinesUnderHeadingWithOffsets text "Food Log").flatMap fun lo =>
    (findAllLinked lo.1).filterMap fun m =>
      let amount := ratOfNumChars (m.2).value
      if amount ≤ 0 then none
      else
        match normalizeFileName (m.2).ref with
        | none => none
        | some name =>
          match provider.getCaloriesForFood name with
          | none => none
          | some cal =>
            let mult := getUnitMultiplier amount (m.2).unit (provider.getServingSize name)
            let calculated := mult * cal
            if calculated < 0 then none
            else if jround calculated < 0 then none
            else some (startOffset + lo.2 + lo.1.length,
              (Nat.repr (jround calculated).toNat).data ++ "kcal".data)

/-! ## Range application on the live tree
(`FoodHighlightPostProcessor.highlightMatches` and helpers)

The position accounting of every traversal below mirrors
`reconstructMarkdownText`: text nodes their length, prior hint elements
zero (subtree skipped), `internal-link` elements the length of `[[href]]`,
`tag` elements their visible text length, `<br>` one, and other elements
are entered without contributing. -/

/-- The two wrapper classes produced by `getClassNameForType`. -/
def isWrapperClasses (classes : List (List Char)) : Bool :=
  "food-tracker-value".data ∈ classes ∨ "food-tracker-nutrition-value".data ∈ classes

/-- The classes `findInsertionPoint` walks up to (includes the
`food-tracker-negative-kcal` kind, which this code never creates). -/
def isInsertionAnchorClasses (classes : List (List Char)) : Bool :=
  isWrapperClasses classes ∨ "food-tracker-negative-kcal".data ∈ classes

/-- `span.className = cls; span.textContent = content` (an empty
`textContent` assignment leaves no child). -/
def mkSpan (cls : List Char) (content : List Char) : DNode :=
  DNode.elem "SPAN".data [cls] none
    (if content = [] then [] else [DNode.text content])

mutual

/-- Unwrap previously applied wrapper elements below a node: a wrapper
becomes the text node of its `textContent` (outer wrappers first, as the
static `querySelectorAll` list is processed); other elements recurse. -/
def unwrapNode : DNode → DNode
  | .text s => .text s
  | .elem tag classes href cs =>
    .elem tag classes href (unwrapL cs)

/-- Unwrap inside a sibling list. -/
def unwrapL : List DNode → List DNode
  | [] => []
  | n :: ns =>
    (match n with
     | .elem _ classes _ _ =>
       if isWrapperClasses classes then DNode.text n.textContent else unwrapNode n
     | .text s => DNode.text s) :: unwrapL ns

end

mutual

/-- Remove previously inserted calorie-hint elements below a node
(`container.querySelectorAll(".food-tracker-inline-calories")` + `remove`). -/
def removeHints : DNode → DNode
  | .text s => .text s
  | .elem tag classes href cs => .elem tag classes href (removeHintsL cs)

/-- Remove hints inside a sibling list. -/
def removeHintsL : List DNode → List DNode
  | [] => []
  | n :: ns =>
    match n with
    | .elem _ classes _ _ =>
      if "food-tracker-inline-calories".data ∈ classes then removeHintsL ns
      else removeHints n :: removeHintsL ns
    | .text s => DNode.text s :: removeHintsL ns

end

/-- One collected `nodesToWrap` entry: the running index of the text node
in traversal order, and its content split at the overlap boundaries
(`before = [0, wrapStart)`, `mid = [wrapStart, wrapEnd)`,
`after = [wrapEnd, …)`). -/
structure Slice where
  ctr : Nat
  before : List Char
  mid : List Char
  after : List Char
  deriving Repr

mutual

/-- The collection walk of `wrapTextAtPosition`: thread the logical
position and the text-node counter, collect overlap slices, and stop when
the position reaches `endPos` (the `break`). -/
def collectW (startPos endPos : Nat) : DNode → Nat → Nat →
    List Slice × Nat × Nat × Bool
  | .text s, pos, ctr =>
    let len := s.length
    let acc :=
      if startPos < pos + len ∧ pos < endPos then
        let wrapStart := startPos - pos
        let wrapEnd := min len (endPos - pos)
        [⟨ctr, s.take wrapStart, (s.drop wrapStart).take (wrapEnd - wrapStart),
          s.drop wrapEnd⟩]
      else []
    (acc, pos + len, ctr + 1, decide (endPos ≤ pos + len))
  | .elem tag classes href cs, pos, ctr =>
    if "food-tracker-inline-calories".data ∈ classes then ([], pos, ctr, false)
    else if "internal-link".data ∈ classes then
      let len := 4 + (href.getD (DNode.textContentL cs)).length
      ([], pos + len, ctr, decide (endPos ≤ pos + len))
    else if "tag".data ∈ classes then
      let len := (DNode.textContentL cs).length
      ([], pos + len, ctr, decide (endPos ≤ pos + len))
    else if tag = "BR".data then ([], pos + 1, ctr, decide (endPos ≤ pos + 1))
    else collectWL startPos endPos cs pos ctr

/-- Collection over a sibling list, propagating the stop flag. -/
def collectWL (startPos endPos : Nat) : List DNode → Nat → Nat →
    List Slice × Nat × Nat × Bool
  | [], pos, ctr => ([], pos, ctr, false)
  | n :: ns, pos, ctr =>
    let r1 := collectW startPos endPos n pos ctr
    if r1.2.2.2 then r1
    else
      let r2 := collectWL startPos endPos ns r1.2.1 r1.2.2.1
      (r1.1 ++ r2.1, r2.2)

end

/-- What the mutation phase of `wrapTextAtPosition` does to the text node
with a given traversal index. -/
inductive WrapAction where
  | keep
  | single (before mid after : List Char)
  | first (before total : List Char)
  | middle
  | last (after : List Char)

/-- Derive each collected node's action from the slice list: one node is
split in place around its own slice; of several nodes, the first is
replaced by its prefix and the wrapper holding the *whole* accumulated
match, intermediate nodes are removed (their content accumulated), and the
last leaves only its suffix. -/
def actionFor (slices : List Slice) (total : List Char) (ctr : Nat) : WrapAction :=
  match slices.findIdx? (fun sl => sl.ctr = ctr) with
  | none => .keep
  | some j =>
    if slices.length = 1 then
      match slices with
      | [sl] => .single sl.before sl.mid sl.after
      | _ => .keep
    else if j = 0 then
      match slices.head? with
      | some sl => .first sl.before total
      | none => .keep
    else if j = slices.length - 1 then
      match slices.getLast? with
      | some sl => .last sl.after
      | none => .keep
    else .middle

mutual

/-- The mutation phase of `wrapTextAtPosition`: rebuild the tree, replacing
each collected text node according to its action.  Empty `before`/`after`
parts insert no node, matching the source's guards. -/
def rebuildW (cls : List Char) (act : Nat → WrapAction) : DNode → Nat →
    List DNode × Nat
  | .text s, ctr =>
    (match act ctr with
     | .keep => [DNode.text s]
     | .single b m a =>
       (if b = [] then [] else [DNode.text b]) ++ [mkSpan cls m] ++
         (if a = [] then [] else [DNode.text a])
     | .first b total =>
       (if b = [] then [] else [DNode.text b]) ++ [mkSpan cls total]
     | .middle => []
     | .last a => if a = [] then [] else [DNode.text a],
     ctr + 1)
  | .elem tag classes href cs, ctr =>
    if "food-tracker-inline-calories".data ∈ classes ∨
        "internal-link".data ∈ classes ∨ "tag".data ∈ classes ∨
        tag = "BR".data then
      ([DNode.elem tag classes href cs], ctr)
    else
      let r := rebuildWL cls act cs ctr
      ([DNode.elem tag classes href r.1], r.2)

/-- Rebuild over a sibling list. -/
def rebuildWL (cls : List Char) (act : Nat → WrapAction) : List DNode → Nat →
    List DNode × Nat
  | [], ctr => ([], ctr)
  | n :: ns, ctr =>
    let r1 := rebuildW cls act n ctr
    let r2 := rebuildWL cls act ns r1.2
    (r1.1 ++ r2.1, r2.2)

end

/-- `wrapTextAtPosition(container, startPos, endPos, className)`. -/
def wrapTextAtPosition (container : DNode) (startPos endPos : Nat)
    (cls : List Char) : DNode :=
  match container with
  | .text s => .text s
  | .elem tag classes href cs =>
    let slices := (collectWL startPos endPos cs 0 0).1
    if slices.isEmpty then .elem tag classes href cs
    else
      let total := (slices.map Slice.mid).flatten
      .elem tag classes href (rebuildWL cls (actionFor slices total) cs 0).1

/-- `getClassNameForType`. -/
def classNameFor : HLType → List Char
  | .amount => "food-tracker-value".data
  | .nutrition => "food-tracker-nutrition-value".data

/-- `highlightMatches(container, reconstructedText)`: unwrap previous
wrappers, recompute the ranges from the reconstructed text, and apply them
in descending `start` order (a stable sort, as JS `Array.prototype.sort`). -/
def highlightMatches (container : DNode) (recon : List Char) : DNode :=
  let t1 := unwrapNode container
  let ranges := extractMultilineHighlightRanges (String.mk recon) 0
  let sorted := ranges.mergeSort (fun a b => b.start ≤ a.start)
  sorted.foldl (fun c r => wrapTextAtPosition c r.start r.stop (classNameFor r.type)) t1

/-- `findInsertionNodeAtPosition`'s walk over a sibling list: the first
node whose contribution reaches `position` (relative paths of child
indices; entering a plain element prefixes its index). -/
def findInsAux (position : Nat) : List DNode → Nat → Nat →
    Option (List Nat) × Nat
  | [], pos, _ => (none, pos)
  | n :: ns, pos, i =>
    match n with
    | .text s =>
      if position ≤ pos + s.length then (some [i], pos)
      else findInsAux position ns (pos + s.length) (i + 1)
    | .elem tag classes href cs =>
      if "food-tracker-inline-calories".data ∈ classes then
        findInsAux position ns pos (i + 1)
      else if "internal-link".data ∈ classes then
        let len := 4 + (href.getD (DNode.textContentL cs)).length
        if position ≤ pos + len then (some [i], pos)
        else findInsAux position ns (pos + len) (i + 1)
      else if "tag".data ∈ classes then
        let len := (DNode.textContentL cs).length
        if position ≤ pos + len then (some [i], pos)
        else findInsAux position ns (pos + len) (i + 1)
      else if tag = "BR".data then
        if position ≤ pos + 1 then (some [i], pos)
        else findInsAux position ns (pos + 1) (i + 1)
      else
        let r := findInsAux position cs pos 0
        match r.1 with
        | some p => (some (i :: p), r.2)
        | none => findInsAux position ns r.2 (i + 1)

/-- `findInsertionNodeAtPosition(container, position)`: the walk's result,
falling back to `container.lastChild`. -/
def findInsertionNodeAtPosition (container : DNode) (position : Nat) :
    Option (List Nat) :=
  match container with
  | .text _ => none
  | .elem _ _ _ cs =>
    match (findInsAux position cs 0 0).1 with
    | some p => some p
    | none => if cs.isEmpty then none else some [cs.length - 1]

/-- The node of a container at a child-index path. -/
def nodeAtPath : DNode → List Nat → Option DNode
  | n, [] => some n
  | .elem _ _ _ cs, i :: p =>
    match cs[i]? with
    | some c => nodeAtPath c p
    | none => none
  | .text _, _ :: _ => none

/-- `findInsertionPoint(targetNode, container)`: the target or its nearest
strict-below-container ancestor that is a wrapper (walking upward), else the
target itself. -/
def findInsPointPath (container : DNode) (p : List Nat) : List Nat :=
  findInsPointGo container p p.length
where
  /-- Try the prefixes of `p` of length `len`, `len-1`, …, `1`. -/
  findInsPointGo (container : DNode) (p : List Nat) : Nat → List Nat
    | 0 => p
    | len + 1 =>
      if len + 1 ≤ p.length then
        match nodeAtPath container (p.take (len + 1)) with
        | some (.elem _ classes _ _) =>
          if isInsertionAnchorClasses classes then p.take (len + 1)
          else findInsPointGo container p len
        | _ => findInsPointGo container p len
      else findInsPointGo container p len

/-- Insert `newNode` as the next sibling of the node at `p` (append when it
is the last child), leaving the tree unchanged on a dangling path. -/
def insertAfterAt : DNode → List Nat → DNode → DNode
  | .elem t c h cs, [i], newNode =>
    .elem t c h ((cs.take (i + 1)) ++ [newNode] ++ cs.drop (i + 1))
  | .elem t c h cs, i :: p@(_ :: _), newNode =>
    .elem t c h (cs.modify (fun child => insertAfterAt child p newNode) i)
  | n, _, _ => n

/-- Wrong-way-up walk of `findInsertionPoint`: that the code checks the
target before its ancestors is captured by trying the longest prefix first.
The hint element inserted by the pass. -/
def mkHintSpan (text : List Char) : DNode :=
  DNode.elem "SPAN".data ["food-tracker-inline-calories".data] none
    [DNode.text (' ' :: text)]

/-- Insert one calorie hint at a logical position: reverse-lookup the
position, walk up to the nearest wrapper, insert after it. -/
def insertHint (container : DNode) (position : Nat) (text : List Char) : DNode :=
  match findInsertionNodeAtPosition container position with
  | none => container
  | some p => insertAfterAt container (findInsPointPath container p) (mkHintSpan text)

/-- The full per-container reconciliation step of
`FoodHighlightPostProcessor.process` *below* the `settings` reference:
reconstruct, guard on the Food Log heading, compute hint positions from the
reconstructed text, unwrap + re-wrap the highlight ranges, remove previous
hints, insert the new ones.  (In the source this code is unreachable —
see `processContainers` — but it is exactly the range-wrapping /
annotation-insertion step the claim describes.) -/
def reconciliationStep (provider : CalorieProvider) (showHints : Bool)
    (container : DNode) : DNode :=
  let recon := reconstructMarkdownText container
  if recon = [] ∨ containsRelevantTags recon = false then container
  else
    let hints :=
      if showHints then extractInlineCalorieAnnotations (String.mk recon) 0 provider
      else []
    let t2 := highlightMatches container recon
    let t3 := removeHints t2
    hints.foldl (fun c h => insertHint c h.1 h.2) t3

mutual

/-- Number of highlight-wrapper elements in a tree (an observable that
separates trees). -/
def countWrapperNodes : DNode → Nat
  | .text _ => 0
  | .elem _ classes _ cs =>
    (if isWrapperClasses classes then 1 else 0) + countWrapperNodesL cs

/-- Wrapper count of a sibling list. -/
def countWrapperNodesL : List DNode → Nat
  | [] => 0
  | n :: ns => countWrapperNodes n + countWrapperNodesL ns

end

/-- A provider with no nutrition data (hint extraction yields nothing). -/
def noDataProvider : CalorieProvider := ⟨fun _ => none, fun _ => none⟩

/-- A rendered paragraph whose logical line `a 5kcal` is split by an opaque
`tag` element: `[text "a 5", tag("kc"), text "al"]`.  The nutrition range
`5kcal` then spans text on both sides of the tag. -/
def idempotenceFailingTree : DNode :=
  DNode.elem "p".data [] none
    [DNode.text "## Food Log".data,
     DNode.elem "BR".data [] none [],
     DNode.text "a 5".data,
     DNode.elem "A".data ["tag".data] none [DNode.text "kc".data],
     DNode.text "al".data]

/-- **C9 (code evidence).** The reconciliation step is *not* idempotent.
On `idempotenceFailingTree` the first application wraps the two slices `5`
and `al` into one nutrition span placed before the tag element — reordering
the projected text from `a 5kcal` to `a 5alkc` — and the second application
therefore finds no nutrient token, unwraps the span and re-wraps nothing:
one wrapper after one pass, none after two, so the trees differ. -/
theorem reconciliation_step_not_idempotent :
    reconstructMarkdownText idempotenceFailingTree = "## Food Log\na 5kcal".data ∧
    reconstructMarkdownText
        (reconciliationStep noDataProvider true idempotenceFailingTree) =
      "## Food Log\na 5alkc".data ∧
    countWrapperNodes (reconciliationStep noDataProvider true idempotenceFailingTree) = 1 ∧
    countWrapperNodes
        (reconciliationStep noDataProvider true
          (reconciliationStep noDataProvider true idempotenceFailingTree)) = 0 ∧
    reconciliationStep noDataProvider true
        (reconciliationStep noDataProvider true idempotenceFailingTree) ≠
      reconciliationStep noDataProvider true idempotenceFailingTree := by
  have h1 : countWrapperNodes
      (reconciliationStep noDataProvider true idempotenceFailingTree) = 1 := by
    with_unfolding_all decide
  have h2 : countWrapperNodes
      (reconciliationStep noDataProvider true
        (reconciliationStep noDataProvider true idempotenceFailingTree)) = 0 := by
    with_unfolding_all decide
  refine ⟨by with_unfolding_all decide, by with_unfolding_all decide, h1, h2, fun heq => ?_⟩
  have hc := congrArg countWrapperNodes heq
  rw [h1, h2] at hc
  exact absurd hc (by decide)

end FoodTracker
